import Mathlib

/-!
Verification of the snapshot/diff core of `heimdall.py`.

The Python functions `compare_hashes`, `detect_moves`, `load_hash_db`,
`save_hash_db`, `get_hasher` and the relevant slice of `main` are embedded
shallowly: dicts become association lists in insertion order, Python sets
become membership-filtered lists, exceptions become an explicit result type,
and float timestamps become rationals.
-/

namespace Heimdall

/-- One tracked file: `FileInfo(path, hash_val, mtime, size)` from `heimdall.py`
lines 28–40. `mtime` is a POSIX timestamp (fractional seconds allowed),
modelled as a rational. -/
structure FileInfo where
  path : String
  hash : String
  mtime : ℚ
  size : ℕ
deriving DecidableEq, Repr

/-- A snapshot is the Python dict `path -> FileInfo`, embedded as an
association list in insertion order. Dict keys are unique, so lists whose
keys are `Nodup` are the faithful ones; a claim takes that as a hypothesis
only where its proof needs it. -/
abbrev Snapshot := List (String × FileInfo)

/-- Dict access `infos[p]` (first binding of the key, unique for dicts). -/
def lookupInfo (s : Snapshot) (p : String) : Option FileInfo :=
  List.lookup p s

/-- The key set of a snapshot, as a list: `set(infos.keys())`. -/
def snapKeys (s : Snapshot) : List String := s.map Prod.fst

/-- `infos[p].hash` when `p in infos`, else `none`. -/
def hashAt (s : Snapshot) (p : String) : Option String :=
  (lookupInfo s p).map FileInfo.hash

/-- `added_files = list(new_files - old_files)` in `compare_hashes` (line 189).
Membership is what the set difference fixes; Python set iteration order is
unspecified, here the order is `new`'s insertion order. -/
def addedFiles (old new : Snapshot) : List String :=
  (snapKeys new).filter fun p => decide (p ∉ snapKeys old)

/-- `deleted_files = list(old_files - new_files)` (line 190). -/
def deletedFiles (old new : Snapshot) : List String :=
  (snapKeys old).filter fun p => decide (p ∉ snapKeys new)

/-- `modified_files` (lines 193–195): paths in both snapshots whose digests
differ. -/
def modifiedFiles (old new : Snapshot) : List String :=
  (snapKeys new).filter fun p =>
    decide (p ∈ snapKeys old ∧ hashAt new p ≠ hashAt old p)

/-- The move compatibility check of `detect_moves` (lines 166–167):
`old_info.size == new_info.size and abs(old_info.mtime - new_info.mtime) < 2`. -/
def compatible (oi ni : FileInfo) : Bool :=
  decide (oi.size = ni.size) && decide (|oi.mtime - ni.mtime| < 2)

/-- The check applied to a candidate pair of paths; inside the pairing loop
both lookups always succeed, the `false` branches are unreachable there. -/
def pairOk (old new : Snapshot) (op np : String) : Bool :=
  match lookupInfo old op, lookupInfo new np with
  | some oi, some ni => compatible oi ni
  | _, _ => false

/-- `hash_to_deleted[h]` resp. `hash_to_added[h]` (lines 140–151): the paths
among `paths` present in `s` with digest `h`, in encounter order. -/
def bucket (s : Snapshot) (paths : List String) (h : String) : List String :=
  paths.filter fun p => decide (hashAt s p = some h)

/-- First-occurrence deduplication: Python dict key iteration order. -/
def dedupFirst : List String → List String
  | [] => []
  | h :: t => h :: ((dedupFirst t).filter fun x => decide (x ≠ h))

/-- The keys of `hash_to_deleted` in insertion order: the digests of the
deleted paths present in `old`, first occurrence first (line 153). -/
def deletedHashes (deleted : List String) (old : Snapshot) : List String :=
  dedupFirst (deleted.filterMap fun p => hashAt old p)

/-- The inner pairing loop of `detect_moves` for one digest (lines 154–168):
positional pairing up to the minimum of the two bucket lengths (`zip`),
keeping the pairs that pass the compatibility check. -/
def movesForHash (old new : Snapshot) (deleted added : List String) (h : String) :
    List (String × String) :=
  ((bucket old deleted h).zip (bucket new added h)).filter fun pr =>
    pairOk old new pr.1 pr.2

/-- The full `moves` list built by `detect_moves` (lines 139–168). -/
def movesList (added deleted : List String) (old new : Snapshot) :
    List (String × String) :=
  (deletedHashes deleted old).flatMap (movesForHash old new deleted added)

/-- `detect_moves(added_files, deleted_files, old_infos, new_infos)`
returning `(moves, actual_added, actual_deleted)` (lines 138–183). -/
def detect_moves (added deleted : List String) (old new : Snapshot) :
    List (String × String) × List String × List String :=
  (movesList added deleted old new,
   added.filter fun p => decide (p ∉ (movesList added deleted old new).map Prod.snd),
   deleted.filter fun p => decide (p ∉ (movesList added deleted old new).map Prod.fst))

/-- `compare_hashes(old_infos, new_infos)` returning
`(actual_added, actual_deleted, modified_files, moves)` (lines 185–201). -/
def compare_hashes (old new : Snapshot) :
    List String × List String × List String × List (String × String) :=
  ((detect_moves (addedFiles old new) (deletedFiles old new) old new).2.1,
   (detect_moves (addedFiles old new) (deletedFiles old new) old new).2.2,
   modifiedFiles old new,
   (detect_moves (addedFiles old new) (deletedFiles old new) old new).1)

/-! ### Basic membership lemmas -/

theorem mem_addedFiles {old new : Snapshot} {p : String} :
    p ∈ addedFiles old new ↔ p ∈ snapKeys new ∧ p ∉ snapKeys old := by
  simp [addedFiles]

theorem mem_deletedFiles {old new : Snapshot} {p : String} :
    p ∈ deletedFiles old new ↔ p ∈ snapKeys old ∧ p ∉ snapKeys new := by
  simp [deletedFiles]

theorem mem_modifiedFiles {old new : Snapshot} {p : String} :
    p ∈ modifiedFiles old new ↔
      p ∈ snapKeys new ∧ p ∈ snapKeys old ∧ hashAt new p ≠ hashAt old p := by
  simp [modifiedFiles, and_assoc]

theorem mem_bucket {s : Snapshot} {paths : List String} {h p : String} :
    p ∈ bucket s paths h ↔ p ∈ paths ∧ hashAt s p = some h := by
  simp [bucket]

theorem mem_dedupFirst {x : String} : ∀ {l : List String}, x ∈ dedupFirst l ↔ x ∈ l := by
  intro l
  induction l with
  | nil => simp [dedupFirst]
  | cons h t ih =>
    by_cases hx : x = h
    · simp [dedupFirst, hx]
    · simp [dedupFirst, hx, ih]

theorem nodup_dedupFirst : ∀ l : List String, (dedupFirst l).Nodup := by
  intro l
  induction l with
  | nil => simp [dedupFirst]
  | cons h t ih =>
    refine List.Nodup.cons ?_ (List.Nodup.filter _ ih)
    intro hmem
    have := List.of_mem_filter hmem
    simp at this

theorem mem_deletedHashes {deleted : List String} {old : Snapshot} {h : String} :
    h ∈ deletedHashes deleted old ↔ ∃ p ∈ deleted, hashAt old p = some h := by
  simp [deletedHashes, mem_dedupFirst, List.mem_filterMap]

theorem mem_movesForHash {old new : Snapshot} {deleted added : List String}
    {h : String} {pr : String × String}
    (hpr : pr ∈ movesForHash old new deleted added h) :
    (pr.1 ∈ deleted ∧ hashAt old pr.1 = some h) ∧
    (pr.2 ∈ added ∧ hashAt new pr.2 = some h) ∧
    pairOk old new pr.1 pr.2 = true := by
  obtain ⟨a, b⟩ := pr
  rw [movesForHash, List.mem_filter] at hpr
  obtain ⟨hz, hok⟩ := hpr
  obtain ⟨ha, hb⟩ := List.of_mem_zip hz
  exact ⟨mem_bucket.mp ha, mem_bucket.mp hb, hok⟩

theorem mem_movesList_parts {added deleted : List String} {old new : Snapshot}
    {pr : String × String} (hpr : pr ∈ movesList added deleted old new) :
    pr.1 ∈ deleted ∧ pr.2 ∈ added ∧ pairOk old new pr.1 pr.2 = true ∧
    ∃ h, hashAt old pr.1 = some h ∧ hashAt new pr.2 = some h := by
  rw [movesList, List.mem_flatMap] at hpr
  obtain ⟨h, _, hmem⟩ := hpr
  obtain ⟨⟨h1, h2⟩, ⟨h3, h4⟩, h5⟩ := mem_movesForHash hmem
  exact ⟨h1, h3, h5, h, h2, h4⟩

/-- The moves of `compare_hashes old new`, spelt out. -/
theorem compare_hashes_moves (old new : Snapshot) :
    (compare_hashes old new).2.2.2 =
      movesList (addedFiles old new) (deletedFiles old new) old new := rfl

theorem compare_hashes_modified (old new : Snapshot) :
    (compare_hashes old new).2.2.1 = modifiedFiles old new := rfl

theorem mem_compare_added {old new : Snapshot} {p : String} :
    p ∈ (compare_hashes old new).1 ↔
      p ∈ addedFiles old new ∧
      p ∉ (movesList (addedFiles old new) (deletedFiles old new) old new).map Prod.snd := by
  simp [compare_hashes, detect_moves]

theorem mem_compare_deleted {old new : Snapshot} {p : String} :
    p ∈ (compare_hashes old new).2.1 ↔
      p ∈ deletedFiles old new ∧
      p ∉ (movesList (addedFiles old new) (deletedFiles old new) old new).map Prod.fst := by
  simp [compare_hashes, detect_moves]

theorem addedFiles_self (S : Snapshot) : addedFiles S S = [] := by
  rw [addedFiles, List.filter_eq_nil_iff]
  intro p hp
  simp [hp]

theorem deletedFiles_self (S : Snapshot) : deletedFiles S S = [] := by
  rw [deletedFiles, List.filter_eq_nil_iff]
  intro p hp
  simp [hp]

theorem modifiedFiles_self (S : Snapshot) : modifiedFiles S S = [] := by
  rw [modifiedFiles, List.filter_eq_nil_iff]
  intro p _
  simp

theorem movesList_nil_deleted (added : List String) (old new : Snapshot) :
    movesList added [] old new = [] := by
  simp [movesList, deletedHashes, dedupFirst]

/-- C4: comparing any snapshot with itself reports no added, deleted,
modified or moved files. -/
theorem compare_hashes_self (S : Snapshot) :
    compare_hashes S S = ([], [], [], []) := by
  have ha := addedFiles_self S
  have hd := deletedFiles_self S
  have hm := modifiedFiles_self S
  simp [compare_hashes, detect_moves, ha, hd, hm, movesList_nil_deleted]

/-- C3: a path present in both snapshots is reported modified exactly when its
digest changed; when the digest is unchanged the path appears in no category
of the change set (regardless of its size or mtime in either snapshot). -/
theorem modified_iff_digest_differs (old new : Snapshot) (p : String)
    (hpo : p ∈ snapKeys old) (hpn : p ∈ snapKeys new) :
    (p ∈ (compare_hashes old new).2.2.1 ↔ hashAt new p ≠ hashAt old p) ∧
    (hashAt new p = hashAt old p →
      p ∉ (compare_hashes old new).1 ∧
      p ∉ (compare_hashes old new).2.1 ∧
      p ∉ (compare_hashes old new).2.2.1 ∧
      ∀ pr ∈ (compare_hashes old new).2.2.2, pr.1 ≠ p ∧ pr.2 ≠ p) := by
  constructor
  · rw [compare_hashes_modified, mem_modifiedFiles]
    simp [hpo, hpn]
  · intro heq
    have hadd : p ∉ addedFiles old new := by
      rw [mem_addedFiles]
      simp [hpo]
    have hdel : p ∉ deletedFiles old new := by
      rw [mem_deletedFiles]
      simp [hpn]
    refine ⟨?_, ?_, ?_, ?_⟩
    · rw [mem_compare_added]
      intro hc
      exact hadd hc.1
    · rw [mem_compare_deleted]
      intro hc
      exact hdel hc.1
    · rw [compare_hashes_modified, mem_modifiedFiles]
      simp [heq]
    · intro pr hpr
      rw [compare_hashes_moves] at hpr
      obtain ⟨h1, h2, _, _⟩ := mem_movesList_parts hpr
      constructor
      · intro hh
        exact hdel (hh ▸ h1)
      · intro hh
        exact hadd (hh ▸ h2)

/-! ### The partition invariant -/

/-- Exactly one of four propositions holds. -/
def ExactlyOne4 (a b c d : Prop) : Prop :=
  (a ∨ b ∨ c ∨ d) ∧ ¬(a ∧ b) ∧ ¬(a ∧ c) ∧ ¬(a ∧ d) ∧ ¬(b ∧ c) ∧ ¬(b ∧ d) ∧ ¬(c ∧ d)

theorem exactlyOne4_first {a b c d : Prop} (ha : a) (hb : ¬b) (hc : ¬c) (hd : ¬d) :
    ExactlyOne4 a b c d :=
  ⟨Or.inl ha, fun h => hb h.2, fun h => hc h.2, fun h => hd h.2,
   fun h => hb h.1, fun h => hb h.1, fun h => hc h.1⟩

theorem exactlyOne4_second {a b c d : Prop} (hb : b) (ha : ¬a) (hc : ¬c) (hd : ¬d) :
    ExactlyOne4 a b c d :=
  ⟨Or.inr (Or.inl hb), fun h => ha h.1, fun h => ha h.1, fun h => ha h.1,
   fun h => hc h.2, fun h => hd h.2, fun h => hc h.1⟩

theorem exactlyOne4_third {a b c d : Prop} (hc : c) (ha : ¬a) (hb : ¬b) (hd : ¬d) :
    ExactlyOne4 a b c d :=
  ⟨Or.inr (Or.inr (Or.inl hc)), fun h => ha h.1, fun h => ha h.1, fun h => ha h.1,
   fun h => hb h.1, fun h => hb h.1, fun h => hd h.2⟩

theorem exactlyOne4_fourth {a b c d : Prop} (hd : d) (ha : ¬a) (hb : ¬b) (hc : ¬c) :
    ExactlyOne4 a b c d :=
  ⟨Or.inr (Or.inr (Or.inr hd)), fun h => ha h.1, fun h => ha h.1, fun h => ha h.1,
   fun h => hb h.1, fun h => hb h.1, fun h => hc h.1⟩

/-- C1: the change set returned by `compare_hashes` partitions the path
universe: the reported added paths are disjoint from the moved new-paths, the
reported deleted paths are disjoint from the moved old-paths, and every path
of `old ∪ new` falls in exactly one category — on the old side one of
deleted / modified / unchanged / moved-old, on the new side one of
added / modified / unchanged / moved-new. -/
theorem compare_hashes_partition (old new : Snapshot)
    (added deleted modified : List String) (moves : List (String × String))
    (hres : compare_hashes old new = (added, deleted, modified, moves)) :
    (∀ p ∈ added, p ∉ moves.map Prod.snd) ∧
    (∀ p ∈ deleted, p ∉ moves.map Prod.fst) ∧
    (∀ p ∈ snapKeys old,
      ExactlyOne4 (p ∈ deleted) (p ∈ modified)
        (p ∈ snapKeys new ∧ hashAt old p = hashAt new p)
        (p ∈ moves.map Prod.fst)) ∧
    (∀ p ∈ snapKeys new,
      ExactlyOne4 (p ∈ added) (p ∈ modified)
        (p ∈ snapKeys old ∧ hashAt old p = hashAt new p)
        (p ∈ moves.map Prod.snd)) := by
  have hA : added = (compare_hashes old new).1 := by rw [hres]
  have hD : deleted = (compare_hashes old new).2.1 := by rw [hres]
  have hM : modified = (compare_hashes old new).2.2.1 := by rw [hres]
  have hV : moves = (compare_hashes old new).2.2.2 := by rw [hres]
  subst hA hD hM hV
  rw [compare_hashes_moves, compare_hashes_modified]
  have hMO : ∀ q : String,
      q ∈ (movesList (addedFiles old new) (deletedFiles old new) old new).map Prod.fst →
      q ∈ deletedFiles old new := by
    intro q hq
    rw [List.mem_map] at hq
    obtain ⟨pr, hpr, rfl⟩ := hq
    exact (mem_movesList_parts hpr).1
  have hMN : ∀ q : String,
      q ∈ (movesList (addedFiles old new) (deletedFiles old new) old new).map Prod.snd →
      q ∈ addedFiles old new := by
    intro q hq
    rw [List.mem_map] at hq
    obtain ⟨pr, hpr, rfl⟩ := hq
    exact (mem_movesList_parts hpr).2.1
  refine ⟨?_, ?_, ?_, ?_⟩
  · intro p hp
    exact (mem_compare_added.mp hp).2
  · intro p hp
    exact (mem_compare_deleted.mp hp).2
  · intro p hp
    by_cases hpn : p ∈ snapKeys new
    · have hndf : p ∉ deletedFiles old new := fun hc => (mem_deletedFiles.mp hc).2 hpn
      have hnd : p ∉ (compare_hashes old new).2.1 := fun hc =>
        hndf (mem_compare_deleted.mp hc).1
      have hnmv : p ∉ (movesList (addedFiles old new) (deletedFiles old new) old new).map
          Prod.fst := fun hc => hndf (hMO p hc)
      by_cases hh : hashAt old p = hashAt new p
      · refine exactlyOne4_third ⟨hpn, hh⟩ hnd ?_ hnmv
        intro hc
        exact (mem_modifiedFiles.mp hc).2.2 hh.symm
      · refine exactlyOne4_second ?_ hnd ?_ hnmv
        · exact mem_modifiedFiles.mpr ⟨hpn, hp, fun he => hh he.symm⟩
        · intro hc
          exact hh hc.2
    · have hdf : p ∈ deletedFiles old new := mem_deletedFiles.mpr ⟨hp, hpn⟩
      have hnm : p ∉ modifiedFiles old new := fun hc => hpn (mem_modifiedFiles.mp hc).1
      have hnu : ¬(p ∈ snapKeys new ∧ hashAt old p = hashAt new p) := fun hc => hpn hc.1
      by_cases hmv : p ∈ (movesList (addedFiles old new) (deletedFiles old new) old new).map
          Prod.fst
      · refine exactlyOne4_fourth hmv ?_ hnm hnu
        intro hc
        exact (mem_compare_deleted.mp hc).2 hmv
      · exact exactlyOne4_first (mem_compare_deleted.mpr ⟨hdf, hmv⟩) hnm hnu hmv
  · intro p hp
    by_cases hpo : p ∈ snapKeys old
    · have hnaf : p ∉ addedFiles old new := fun hc => (mem_addedFiles.mp hc).2 hpo
      have hna : p ∉ (compare_hashes old new).1 := fun hc =>
        hnaf (mem_compare_added.mp hc).1
      have hnmv : p ∉ (movesList (addedFiles old new) (deletedFiles old new) old new).map
          Prod.snd := fun hc => hnaf (hMN p hc)
      by_cases hh : hashAt old p = hashAt new p
      · refine exactlyOne4_third ⟨hpo, hh⟩ hna ?_ hnmv
        intro hc
        exact (mem_modifiedFiles.mp hc).2.2 hh.symm
      · refine exactlyOne4_second ?_ hna ?_ hnmv
        · exact mem_modifiedFiles.mpr ⟨hp, hpo, fun he => hh he.symm⟩
        · intro hc
          exact hh hc.2
    · have haf : p ∈ addedFiles old new := mem_addedFiles.mpr ⟨hp, hpo⟩
      have hnm : p ∉ modifiedFiles old new := fun hc => hpo (mem_modifiedFiles.mp hc).2.1
      have hnu : ¬(p ∈ snapKeys old ∧ hashAt old p = hashAt new p) := fun hc => hpo hc.1
      by_cases hmv : p ∈ (movesList (addedFiles old new) (deletedFiles old new) old new).map
          Prod.snd
      · refine exactlyOne4_fourth hmv ?_ hnm hnu
        intro hc
        exact (mem_compare_added.mp hc).2 hmv
      · exact exactlyOne4_first (mem_compare_added.mpr ⟨haf, hmv⟩) hnm hnu hmv

/-! ### Move classification for a uniquely shared digest -/

theorem pairOk_some (old new : Snapshot) {op np : String} {oi ni : FileInfo}
    (hoi : lookupInfo old op = some oi) (hni : lookupInfo new np = some ni) :
    pairOk old new op np = compatible oi ni := by
  simp [pairOk, hoi, hni]

theorem compatible_iff {oi ni : FileInfo} :
    compatible oi ni = true ↔ oi.size = ni.size ∧ |oi.mtime - ni.mtime| < 2 := by
  simp [compatible]

/-- C2: when a digest `h` is shared by exactly one deleted path `dp` (with old
record `oi`) and exactly one added path `ap` (with new record `ni`), the pair
`(dp, ap)` is classified as a move precisely when `oi.size = ni.size` and
`|oi.mtime - ni.mtime| < 2` seconds; a pair failing the check stays one
independent delete plus one independent add. -/
theorem unique_digest_pair_move_iff_compatible (old new : Snapshot)
    (h dp ap : String) (oi ni : FileInfo)
    (hd : bucket old (deletedFiles old new) h = [dp])
    (ha : bucket new (addedFiles old new) h = [ap])
    (hoi : lookupInfo old dp = some oi)
    (hni : lookupInfo new ap = some ni) :
    ((dp, ap) ∈ (compare_hashes old new).2.2.2 ↔
      oi.size = ni.size ∧ |oi.mtime - ni.mtime| < 2) ∧
    (¬(oi.size = ni.size ∧ |oi.mtime - ni.mtime| < 2) →
      dp ∈ (compare_hashes old new).2.1 ∧ ap ∈ (compare_hashes old new).1) := by
  have hdp : dp ∈ deletedFiles old new ∧ hashAt old dp = some h := by
    refine mem_bucket.mp ?_
    rw [hd]
    exact List.mem_singleton_self dp
  have hap : ap ∈ addedFiles old new ∧ hashAt new ap = some h := by
    refine mem_bucket.mp ?_
    rw [ha]
    exact List.mem_singleton_self ap
  have hok : pairOk old new dp ap = compatible oi ni := pairOk_some old new hoi hni
  -- any move pair whose old path is dp, or whose new path is ap, is exactly (dp, ap),
  -- and then the compatibility check passed
  have hkey : ∀ pr ∈ movesList (addedFiles old new) (deletedFiles old new) old new,
      (pr.1 = dp ∨ pr.2 = ap) →
      pr = (dp, ap) ∧ compatible oi ni = true := by
    intro pr hpr hor
    rw [movesList, List.mem_flatMap] at hpr
    obtain ⟨g, hg, hprg⟩ := hpr
    have hh : g = h := by
      rcases hor with h1 | h2
      · have := ((mem_movesForHash hprg).1).2
        rw [h1, hdp.2] at this
        exact Option.some_inj.mp this.symm
      · have := ((mem_movesForHash hprg).2.1).2
        rw [h2, hap.2] at this
        exact Option.some_inj.mp this.symm
    subst hh
    rw [movesForHash, hd, ha] at hprg
    simp only [List.zip_cons_cons, List.zip_nil_right] at hprg
    rw [List.mem_filter] at hprg
    obtain ⟨hmem, hpok⟩ := hprg
    have hpr_eq : pr = (dp, ap) := by
      simpa using hmem
    refine ⟨hpr_eq, ?_⟩
    rw [hpr_eq] at hpok
    rw [← hok]
    exact hpok
  constructor
  · constructor
    · intro hmem
      rw [compare_hashes_moves] at hmem
      have := (hkey _ hmem (Or.inl rfl)).2
      exact compatible_iff.mp this
    · intro hcompat
      rw [compare_hashes_moves, movesList, List.mem_flatMap]
      refine ⟨h, mem_deletedHashes.mpr ⟨dp, hdp.1, hdp.2⟩, ?_⟩
      rw [movesForHash, hd, ha]
      simp only [List.zip_cons_cons, List.zip_nil_right]
      rw [List.mem_filter]
      refine ⟨by simp, ?_⟩
      show pairOk old new dp ap = true
      rw [hok]
      exact compatible_iff.mpr hcompat
  · intro hncompat
    have hcompat_false : compatible oi ni ≠ true := fun hc =>
      hncompat (compatible_iff.mp hc)
    constructor
    · refine mem_compare_deleted.mpr ⟨hdp.1, ?_⟩
      intro hc
      rw [List.mem_map] at hc
      obtain ⟨pr, hpr, hfst⟩ := hc
      exact hcompat_false (hkey pr hpr (Or.inl hfst)).2
    · refine mem_compare_added.mpr ⟨hap.1, ?_⟩
      intro hc
      rw [List.mem_map] at hc
      obtain ⟨pr, hpr, hsnd⟩ := hc
      exact hcompat_false (hkey pr hpr (Or.inr hsnd)).2

/-! ### Per-digest pairing -/

theorem flatMap_filter_hash (old new : Snapshot) (added deleted : List String)
    (D : String) :
    ∀ hs : List String, hs.Nodup →
      (hs.flatMap (movesForHash old new deleted added)).filter
          (fun pr => decide (hashAt old pr.1 = some D)) =
        if D ∈ hs then movesForHash old new deleted added D else [] := by
  intro hs
  induction hs with
  | nil => simp
  | cons g t ih =>
    intro hnd
    rw [List.flatMap_cons, List.filter_append, ih (List.nodup_cons.mp hnd).2]
    by_cases hgD : g = D
    · subst hgD
      have hDt : g ∉ t := (List.nodup_cons.mp hnd).1
      rw [if_neg hDt, if_pos (List.mem_cons_self g t), List.append_nil]
      apply List.filter_eq_self.mpr
      intro pr hpr
      simp [(mem_movesForHash hpr).1.2]
    · have h1 : (movesForHash old new deleted added g).filter
          (fun pr => decide (hashAt old pr.1 = some D)) = [] := by
        apply List.filter_eq_nil_iff.mpr
        intro pr hpr
        simp [(mem_movesForHash hpr).1.2, hgD]
      rw [h1, List.nil_append]
      by_cases hDt : D ∈ t
      · rw [if_pos hDt, if_pos (List.mem_cons_of_mem _ hDt)]
      · rw [if_neg hDt, if_neg]
        intro hc
        rcases List.mem_cons.mp hc with hcg | hct
        · exact hgD hcg.symm
        · exact hDt hct

theorem movesList_filter_hash (old new : Snapshot) (added deleted : List String)
    (D : String) :
    (movesList added deleted old new).filter
        (fun pr => decide (hashAt old pr.1 = some D)) =
      if D ∈ deletedHashes deleted old
      then movesForHash old new deleted added D
      else [] := by
  rw [movesList]
  exact flatMap_filter_hash old new added deleted D _ (nodup_dedupFirst _)

/-- C5: for every digest `D`, the move pairs produced for `D` are exactly the
positional zip of the per-digest deleted list and added list filtered by the
compatibility check — hence at most `min` of the two bucket lengths many —
and every path of either bucket not consumed by a move stays classified as a
plain delete resp. a plain add. -/
theorem per_digest_pairing (old new : Snapshot) (D : String) :
    ((compare_hashes old new).2.2.2.filter
        fun pr => decide (hashAt old pr.1 = some D)) =
      (((bucket old (deletedFiles old new) D).zip
          (bucket new (addedFiles old new) D)).filter
        fun pr => pairOk old new pr.1 pr.2) ∧
    ((compare_hashes old new).2.2.2.filter
        fun pr => decide (hashAt old pr.1 = some D)).length ≤
      min (bucket old (deletedFiles old new) D).length
        (bucket new (addedFiles old new) D).length ∧
    (∀ p ∈ bucket old (deletedFiles old new) D,
      p ∉ (compare_hashes old new).2.2.2.map Prod.fst →
      p ∈ (compare_hashes old new).2.1) ∧
    (∀ p ∈ bucket new (addedFiles old new) D,
      p ∉ (compare_hashes old new).2.2.2.map Prod.snd →
      p ∈ (compare_hashes old new).1) := by
  have hfirst : ((compare_hashes old new).2.2.2.filter
      fun pr => decide (hashAt old pr.1 = some D)) =
      (((bucket old (deletedFiles old new) D).zip
          (bucket new (addedFiles old new) D)).filter
        fun pr => pairOk old new pr.1 pr.2) := by
    rw [compare_hashes_moves, movesList_filter_hash]
    by_cases hD : D ∈ deletedHashes (deletedFiles old new) old
    · rw [if_pos hD]
      rfl
    · rw [if_neg hD]
      have hb : bucket old (deletedFiles old new) D = [] := by
        rcases hbe : bucket old (deletedFiles old new) D with _ | ⟨p, t⟩
        · rfl
        · exfalso
          apply hD
          have hp : p ∈ bucket old (deletedFiles old new) D := by
            rw [hbe]
            exact List.mem_cons_self p t
          have hpb := mem_bucket.mp hp
          exact mem_deletedHashes.mpr ⟨p, hpb.1, hpb.2⟩
      rw [hb]
      simp
  refine ⟨hfirst, ?_, ?_, ?_⟩
  · rw [hfirst]
    calc (((bucket old (deletedFiles old new) D).zip
          (bucket new (addedFiles old new) D)).filter
          fun pr => pairOk old new pr.1 pr.2).length
        ≤ ((bucket old (deletedFiles old new) D).zip
          (bucket new (addedFiles old new) D)).length := List.length_filter_le _ _
      _ = _ := List.length_zip _ _
  · intro p hp hnm
    rw [compare_hashes_moves] at hnm
    exact mem_compare_deleted.mpr ⟨(mem_bucket.mp hp).1, hnm⟩
  · intro p hp hnm
    rw [compare_hashes_moves] at hnm
    exact mem_compare_added.mpr ⟨(mem_bucket.mp hp).1, hnm⟩

/-! ### Snapshot store: `load_hash_db` / `save_hash_db` -/

/-- One value of the stored JSON object, with each of the three required
fields possibly missing: `{"hash": ..., "mtime": ..., "size": ...}`. -/
structure JsonRecord where
  hash : Option String
  mtime : Option ℚ
  size : Option ℕ
deriving DecidableEq, Repr

/-- The state of the database file `db_path` as `load_hash_db` can observe it. -/
inductive StoredDb where
  /-- `db_path.exists()` is false. -/
  | absent
  /-- the file exists but opening/reading it raises `IOError`/`OSError`. -/
  | unreadable
  /-- the bytes are not valid UTF-8: the read raises `UnicodeDecodeError`. -/
  | undecodable
  /-- valid UTF-8 that `json.load` rejects: `json.JSONDecodeError`. -/
  | invalidJson
  /-- valid JSON whose top level is not an object, so `data.items()` raises
  `AttributeError`. -/
  | notAnObject
  /-- a JSON object mapping paths to records (fields possibly missing). -/
  | object (entries : List (String × JsonRecord))
deriving DecidableEq, Repr

/-- Outcome of a Python call: a normal return, or an uncaught exception
identified by its class name. -/
inductive PyResult (α : Type) where
  | ok (val : α)
  | raised (exc : String)
deriving DecidableEq, Repr

/-- `FileInfo.from_dict(path, data)` (lines 38–40): `data["hash"]` etc.
raise `KeyError` when the field is missing, modelled as `none`. -/
def FileInfo.from_dict (path : String) (data : JsonRecord) : Option FileInfo :=
  match data.hash, data.mtime, data.size with
  | some h, some m, some s => some ⟨path, h, m, s⟩
  | _, _, _ => none

/-- `load_hash_db(db_path)` (lines 61–70). An absent file yields `{}`;
`json.JSONDecodeError` and `KeyError` are caught and also yield `{}` (the
dict comprehension is abandoned whole at the first missing field); any other
exception — `OSError` from `open`, `UnicodeDecodeError` from the read,
`AttributeError` from `.items()` on a non-object — propagates. -/
def load_hash_db : StoredDb → PyResult Snapshot
  | .absent => .ok []
  | .unreadable => .raised "OSError"
  | .undecodable => .raised "UnicodeDecodeError"
  | .invalidJson => .ok []
  | .notAnObject => .raised "AttributeError"
  | .object entries =>
    if entries.all fun pr => (FileInfo.from_dict pr.1 pr.2).isSome
    then .ok (entries.filterMap fun pr =>
      (FileInfo.from_dict pr.1 pr.2).map fun i => (pr.1, i))
    else .ok []

/-- `FileInfo.to_dict` (lines 35–36). -/
def FileInfo.to_dict (i : FileInfo) : JsonRecord :=
  ⟨some i.hash, some i.mtime, some i.size⟩

/-- `save_hash_db(db_path, file_infos)` (lines 72–78) after a successful
write: the stored file then holds `{path: info.to_dict(), ...}`. (A failed
write prints the `IOError` and leaves the previous contents in place.) -/
def save_hash_db (infos : Snapshot) : StoredDb :=
  .object (infos.map fun pr => (pr.1, pr.2.to_dict))

theorem from_dict_to_dict (p : String) (i : FileInfo) :
    FileInfo.from_dict p i.to_dict = some ⟨p, i.hash, i.mtime, i.size⟩ := rfl

theorem from_dict_eq_none {p : String} {r : JsonRecord}
    (h : r.hash = none ∨ r.mtime = none ∨ r.size = none) :
    FileInfo.from_dict p r = none := by
  obtain ⟨rh, rm, rs⟩ := r
  rcases h with h | h | h <;> subst h
  · cases rm <;> cases rs <;> rfl
  · cases rh <;> cases rs <;> rfl
  · cases rh <;> cases rm <;> rfl

/-- C6: saving a snapshot and loading it back returns a snapshot with the
same path keys and, per path, the same digest, mtime and size, each loaded
record's `path` field equal to its key; when the records of `S` carry their
key as `path` (as every scanned or loaded snapshot does) the result is `S`
itself. -/
theorem filterMap_save (S : Snapshot) :
    ((S.map fun pr => (pr.1, pr.2.to_dict)).filterMap fun pr =>
      (FileInfo.from_dict pr.1 pr.2).map fun i => (pr.1, i)) =
      S.map fun pr => (pr.1, FileInfo.mk pr.1 pr.2.hash pr.2.mtime pr.2.size) := by
  induction S with
  | nil => rfl
  | cons q t ih =>
    simp only [List.map_cons, List.filterMap_cons, from_dict_to_dict, Option.map_some']
    rw [ih]

theorem save_load_roundtrip (S : Snapshot) (_hne : S ≠ []) :
    load_hash_db (save_hash_db S) =
      .ok (S.map fun pr => (pr.1, FileInfo.mk pr.1 pr.2.hash pr.2.mtime pr.2.size)) ∧
    ((∀ pr ∈ S, pr.2.path = pr.1) → load_hash_db (save_hash_db S) = .ok S) := by
  clear _hne
  have hall : ((S.map fun pr => (pr.1, pr.2.to_dict)).all
      fun pr => (FileInfo.from_dict pr.1 pr.2).isSome) = true := by
    rw [List.all_eq_true]
    intro pr hpr
    rw [List.mem_map] at hpr
    obtain ⟨q, _, rfl⟩ := hpr
    rw [from_dict_to_dict]
    rfl
  have hfm := filterMap_save S
  have hmain : load_hash_db (save_hash_db S) =
      .ok (S.map fun pr => (pr.1, FileInfo.mk pr.1 pr.2.hash pr.2.mtime pr.2.size)) := by
    rw [save_hash_db, load_hash_db, if_pos hall]
    exact congrArg PyResult.ok hfm
  refine ⟨hmain, fun hwf => ?_⟩
  rw [hmain]
  congr 1
  have : ∀ pr ∈ S, (fun pr : String × FileInfo =>
      (pr.1, FileInfo.mk pr.1 pr.2.hash pr.2.mtime pr.2.size)) pr = pr := by
    intro pr hpr
    obtain ⟨p, i⟩ := pr
    obtain ⟨ip, ih, im, is⟩ := i
    have := hwf (p, FileInfo.mk ip ih im is) hpr
    simp only at this
    simp [this]
  exact List.map_congr_left this |>.trans (List.map_id S)

/-- C10: if the stored JSON parses as an object but any single record lacks
one of the required fields `hash`, `mtime` or `size`, `load_hash_db` returns
the empty snapshot, discarding every record including the well-formed ones. -/
theorem load_discards_all_on_missing_field (entries : List (String × JsonRecord))
    (hbad : ∃ pr ∈ entries, pr.2.hash = none ∨ pr.2.mtime = none ∨ pr.2.size = none) :
    load_hash_db (.object entries) = .ok [] := by
  rw [load_hash_db]
  rw [if_neg]
  intro hall
  rw [List.all_eq_true] at hall
  obtain ⟨pr, hpr, hmiss⟩ := hbad
  have := hall pr hpr
  rw [from_dict_eq_none hmiss] at this
  exact Bool.false_ne_true this

/-- C8 counterexample: loading an existing but unreadable database file is
fatal — the `OSError` raised by `open` is not among the exceptions
`load_hash_db` catches, so it does not return the empty snapshot. -/
theorem load_unreadable_fatal :
    load_hash_db .unreadable = .raised "OSError" ∧
    load_hash_db .unreadable ≠ .ok [] := ⟨rfl, fun h => by cases h⟩

/-- C8 (amended): an absent database file or one whose text fails JSON
parsing (and, by C10, one with incomplete records) loads as the empty
snapshot, but an unreadable file, undecodable bytes, or a JSON document
whose top level is not an object raise an uncaught exception. -/
theorem load_hash_db_error_cases :
    load_hash_db .absent = .ok [] ∧
    load_hash_db .invalidJson = .ok [] ∧
    load_hash_db .unreadable = .raised "OSError" ∧
    load_hash_db .undecodable = .raised "UnicodeDecodeError" ∧
    load_hash_db .notAnObject = .raised "AttributeError" :=
  ⟨rfl, rfl, rfl, rfl, rfl⟩

/-! ### Algorithm selection and the non-watch `main` flow -/

/-- The algorithm-selection part of `get_hasher(alg)` (lines 42–47):
`hashlib.new(alg)` raising `ValueError` is modelled by the validity
predicate; an invalid name prints a warning and falls back to `"sha256"`.
Result: (algorithm actually used, whether the warning was printed). -/
def get_hasher (validAlg : String → Bool) (alg : String) : String × Bool :=
  if validAlg alg then (alg, false) else ("sha256", true)

/-- Outcome of one non-watch invocation of `main` (lines 328–416): exit
code, database state after the run, and the change set computed by
`check_changes` (`none` when no diff was performed: an early exit or the
baseline branch). -/
structure RunResult where
  exitCode : ℤ
  db : StoredDb
  report : Option (List String × List String × List String × List (String × String))
deriving DecidableEq, Repr

/-- The non-watch control flow of `main` for `heimdall FOLDER -a ALG`:
an invalid folder exits 1 before anything else; `get_hasher` resolves the
algorithm; `load_hash_db` runs (its uncaught exceptions propagate, ending
the process abnormally); a loaded empty dict is falsy, so it triggers the
baseline branch — scan, save, exit 0, **no diff**; otherwise
`check_changes` scans, diffs against the loaded baseline, and persists the
new snapshot exactly when the diff is non-empty. `scan` abstracts
`scan_folder` as a function of the resolved algorithm name. -/
def run_main (validAlg : String → Bool) (alg : String) (folderIsDir : Bool)
    (stored : StoredDb) (scan : String → Snapshot) : PyResult RunResult :=
  if !folderIsDir then .ok ⟨1, stored, none⟩
  else
    match load_hash_db stored with
    | .raised e => .raised e
    | .ok old =>
      if old.isEmpty then
        .ok ⟨0, save_hash_db (scan (get_hasher validAlg alg).1), none⟩
      else
        let snap := scan (get_hasher validAlg alg).1
        let ch := compare_hashes old snap
        if ch.1.length + ch.2.1.length + ch.2.2.1.length + ch.2.2.2.length > 0
        then .ok ⟨0, save_hash_db snap, some ch⟩
        else .ok ⟨0, stored, some ch⟩

/-- C7 counterexample: with an invalid hash algorithm name the invocation is
not fatal — here a first run over one file exits 0 and persists a baseline,
contradicting "non-zero status" and "no partial state is persisted". -/
theorem invalid_algorithm_not_fatal :
    run_main (fun a => a == "sha256") "no-such-alg" true .absent
        (fun _ => [("f", FileInfo.mk "f" "D" 0 1)]) =
      .ok ⟨0, .object [("f", JsonRecord.mk (some "D") (some 0) (some 1))], none⟩ := by
  rfl

/-- C7 (amended): an invalid hash algorithm name is reported once as a
warning and replaced by `sha256`; the invocation is not aborted and behaves
exactly like a run that had requested `sha256`. -/
theorem invalid_algorithm_fallback (validAlg : String → Bool) (alg : String)
    (hinv : validAlg alg = false) (hsha : validAlg "sha256" = true)
    (folderIsDir : Bool) (stored : StoredDb) (scan : String → Snapshot) :
    get_hasher validAlg alg = ("sha256", true) ∧
    run_main validAlg alg folderIsDir stored scan =
      run_main validAlg "sha256" folderIsDir stored scan := by
  have h1 : get_hasher validAlg alg = ("sha256", true) := by
    rw [get_hasher, hinv]
    rfl
  have h2 : (get_hasher validAlg alg).1 = (get_hasher validAlg "sha256").1 := by
    rw [h1, get_hasher, hsha]
    rfl
  refine ⟨h1, ?_⟩
  rw [run_main, run_main, h2]

/-- C9 counterexample: after a baseline over an empty directory (a persisted
snapshot with zero records), the next run against a directory containing
only `x.txt` performs no diff at all — the empty loaded dict is falsy, so
the baseline branch runs again (report `none`) — rather than reporting
`x.txt` as added. -/
theorem empty_baseline_rebaselines :
    run_main (fun a => a == "sha256") "sha256" true (save_hash_db [])
        (fun _ => [("x.txt", FileInfo.mk "x.txt" "D" 0 1)]) =
      .ok ⟨0, .object [("x.txt", JsonRecord.mk (some "D") (some 0) (some 1))], none⟩ := by
  rfl

/-- C9 (amended): a persisted zero-record baseline is indistinguishable from
"no baseline": the next run re-baselines, persisting the scanned snapshot
and performing no diff; the diff engine itself, applied to the empty
snapshot and one holding only `x.txt`, would yield added = ["x.txt"] and
empty deleted, modified and moves. -/
theorem empty_baseline_behaviour (validAlg : String → Bool) (alg : String)
    (scan : String → Snapshot) (i : FileInfo) :
    run_main validAlg alg true (save_hash_db []) scan =
      .ok ⟨0, save_hash_db (scan (get_hasher validAlg alg).1), none⟩ ∧
    compare_hashes [] [("x.txt", i)] = (["x.txt"], [], [], []) := by
  constructor
  · rfl
  · have hd : deletedFiles [] [("x.txt", i)] = [] := rfl
    have ha : addedFiles [] [("x.txt", i)] = ["x.txt"] := rfl
    have hm : modifiedFiles [] [("x.txt", i)] = [] := by
      rw [modifiedFiles, List.filter_eq_nil_iff]
      intro p _
      simp [snapKeys]
    simp [compare_hashes, detect_moves, ha, hd, hm, movesList_nil_deleted]

/-! ### Concrete witnesses -/

/-- Witness for C1 at a one-file replace with changed content: the old-side
path `/a` falls in exactly one category (deleted). -/
theorem compare_hashes_partition_witness :
    ExactlyOne4 ("/a" ∈ (["/a"] : List String)) ("/a" ∈ ([] : List String))
      ("/a" ∈ snapKeys [("/b", FileInfo.mk "/b" "B" 0 1)] ∧
        hashAt [("/a", FileInfo.mk "/a" "A" 0 1)] "/a" =
          hashAt [("/b", FileInfo.mk "/b" "B" 0 1)] "/a")
      ("/a" ∈ (([] : List (String × String)).map Prod.fst)) :=
  (compare_hashes_partition [("/a", FileInfo.mk "/a" "A" 0 1)]
    [("/b", FileInfo.mk "/b" "B" 0 1)] ["/b"] ["/a"] [] [] rfl).2.2.1 "/a" (by decide)

/-- Witness for C2: digest `D` on exactly one deleted and one added path,
sizes equal and mtimes 1 second apart, is classified as a move. -/
theorem unique_digest_pair_witness :
    (("/a", "/b") ∈ (compare_hashes [("/a", FileInfo.mk "/a" "D" 0 10)]
        [("/b", FileInfo.mk "/b" "D" 1 10)]).2.2.2 ↔
      (FileInfo.mk "/a" "D" 0 10).size = (FileInfo.mk "/b" "D" 1 10).size ∧
      |(FileInfo.mk "/a" "D" 0 10).mtime - (FileInfo.mk "/b" "D" 1 10).mtime| < 2) :=
  (unique_digest_pair_move_iff_compatible
    [("/a", FileInfo.mk "/a" "D" 0 10)] [("/b", FileInfo.mk "/b" "D" 1 10)]
    "D" "/a" "/b" (FileInfo.mk "/a" "D" 0 10) (FileInfo.mk "/b" "D" 1 10)
    rfl rfl rfl rfl).1

/-- Witness for C3: a path present in both snapshots is modified iff the
digest changed (here it did, despite mtime and size also drifting). -/
theorem modified_iff_digest_differs_witness :
    ("a" ∈ (compare_hashes [("a", FileInfo.mk "a" "h1" 0 1)]
        [("a", FileInfo.mk "a" "h2" 5 2)]).2.2.1 ↔
      hashAt [("a", FileInfo.mk "a" "h2" 5 2)] "a" ≠
        hashAt [("a", FileInfo.mk "a" "h1" 0 1)] "a") :=
  (modified_iff_digest_differs [("a", FileInfo.mk "a" "h1" 0 1)]
    [("a", FileInfo.mk "a" "h2" 5 2)] "a" (by decide) (by decide)).1

/-- Witness for C5 at a digest with two deleted paths and one added path:
the number of moves for that digest is at most `min 2 1`. -/
theorem per_digest_pairing_witness :
    ((compare_hashes [("/a", FileInfo.mk "/a" "D" 0 10), ("/c", FileInfo.mk "/c" "D" 0 10)]
        [("/b", FileInfo.mk "/b" "D" 1 10)]).2.2.2.filter
      fun pr => decide (hashAt [("/a", FileInfo.mk "/a" "D" 0 10),
        ("/c", FileInfo.mk "/c" "D" 0 10)] pr.1 = some "D")).length ≤
      min (bucket [("/a", FileInfo.mk "/a" "D" 0 10), ("/c", FileInfo.mk "/c" "D" 0 10)]
        (deletedFiles [("/a", FileInfo.mk "/a" "D" 0 10), ("/c", FileInfo.mk "/c" "D" 0 10)]
          [("/b", FileInfo.mk "/b" "D" 1 10)]) "D").length
        (bucket [("/b", FileInfo.mk "/b" "D" 1 10)]
          (addedFiles [("/a", FileInfo.mk "/a" "D" 0 10), ("/c", FileInfo.mk "/c" "D" 0 10)]
            [("/b", FileInfo.mk "/b" "D" 1 10)]) "D").length :=
  (per_digest_pairing [("/a", FileInfo.mk "/a" "D" 0 10), ("/c", FileInfo.mk "/c" "D" 0 10)]
    [("/b", FileInfo.mk "/b" "D" 1 10)] "D").2.1

/-- Witness for C6: a one-record snapshot survives a save/load round trip. -/
theorem save_load_roundtrip_witness :
    load_hash_db (save_hash_db [("a", FileInfo.mk "a" "h" 1 2)]) =
      .ok [("a", FileInfo.mk "a" "h" 1 2)] :=
  (save_load_roundtrip [("a", FileInfo.mk "a" "h" 1 2)] (by decide)).2 (by decide)

/-- Witness for C7 (amended): an unknown algorithm name resolves to
`sha256` with the warning flag set. -/
theorem invalid_algorithm_fallback_witness :
    get_hasher (fun a => a == "sha256") "no-such-alg" = ("sha256", true) :=
  (invalid_algorithm_fallback (fun a => a == "sha256") "no-such-alg" rfl rfl
    true .absent (fun _ => [])).1

/-- Witness for C10: one complete record plus one record missing `hash`
loads as the empty snapshot — the complete record is discarded too. -/
theorem load_discards_all_witness :
    load_hash_db (.object
      [("good", JsonRecord.mk (some "h") (some 1) (some 2)),
       ("bad", JsonRecord.mk none (some 1) (some 2))]) = .ok [] :=
  load_discards_all_on_missing_field
    [("good", JsonRecord.mk (some "h") (some 1) (some 2)),
     ("bad", JsonRecord.mk none (some 1) (some 2))] (by decide)

end Heimdall
